import Mathlib

/-!
Verification of the AVAS AI chat relay and web client core
(apps/api/src/index.ts and apps/web/src/App.tsx).

The development shallowly embeds:
- the Express `POST /chat` handler of the relay service (history
  conversion to the Gemini vocabulary, configuration guard, streamed and
  non-streamed emission) against a stubbed deterministic backend;
- the web client's stream-consumption loop, send/cancel/error state
  transitions, and the conversation store (save/load/delete) backed by a
  string key-value model of localStorage, including an executable model
  of the JSON.stringify / JSON.parse pair the store relies on.
-/

/-! ## Wire-level data model (shared by client and relay)

A `Message` is one turn as it travels over the wire: `\x7b role, content \x7d`.
At runtime the role is a plain string (the TS union type is erased), so it
is modelled as `String`. -/

structure Message where
  role : String
  content : String
deriving DecidableEq, Repr

/-- One entry of the history forwarded to the Gemini backend:
`\x7b role, parts: [\x7b text \x7d] \x7d`.  The `parts` array of the source always
holds single-text objects, modelled as a list of the text strings. -/
structure GContent where
  role : String
  parts : List String
deriving DecidableEq, Repr

/-! ## JS string primitives

The source relies on `String.prototype.trim`, `String.prototype.split`
and string truthiness.  They are modelled executably over the character
list of a string. -/

/-- Whitespace stripped by the JS `trim()` (the ASCII part; the exotic
Unicode space characters never occur in this development's inputs). -/
def isJsWs (c : Char) : Bool :=
  c = ' ' || c = '\t' || c = '\n' || c = '\r' || c = '\x0b' || c = '\x0c'

/-- Model of the JS `trim()`: strip whitespace from both ends. -/
def jsTrim (s : String) : String :=
  String.mk (((s.data.dropWhile isJsWs).reverse.dropWhile isJsWs).reverse)

/-- Split a character list at every newline (the separator is consumed;
consecutive and trailing separators yield empty pieces, as in JS
`split("\n")`). -/
def splitNewlineAux : List Char → List Char → List (List Char)
  | acc, [] => [acc.reverse]
  | acc, c :: cs =>
    if c = '\n' then acc.reverse :: splitNewlineAux [] cs
    else splitNewlineAux (c :: acc) cs

/-- Model of the JS `split("\n")`. -/
def jsSplitNewline (s : String) : List String :=
  (splitNewlineAux [] s.data).map String.mk

/-! ## Relay service: history conversion (index.ts lines 125-137) -/

/-- Model of the JS `history.filter((_, index) => index > 0)` at
index.ts line 136: keep exactly the elements whose index is positive. -/
def dropIndexZero (history : List GContent) : List GContent :=
  (history.enum.filter (fun p => 0 < p.1)).map (fun p => p.2)

/-- Model of the guard at index.ts lines 134-137: if the converted history
is non-empty and its first element's role is not "user", apply the
index-filter, else return the history unchanged. -/
def ensureUserFirst (history : List GContent) : List GContent :=
  if 0 < history.length ∧ history.head?.map GContent.role ≠ some "user" then
    dropIndexZero history
  else
    history

/-- Model of the history conversion at index.ts lines 125-137:
`messages.slice(0, -1)` drops the final turn (the new prompt), turns with
falsy or whitespace-only content are dropped (`msg.content &&
msg.content.trim()`), roles are mapped ("assistant" to "model", everything
else to "user"), and then the leading-turn guard is applied. -/
def toGeminiHistory (messages : List Message) : List GContent :=
  ensureUserFirst
    (((messages.dropLast).filter
        (fun m => !m.content.isEmpty && !(jsTrim m.content).isEmpty)).map
      (fun m =>
        { role := if m.role = "assistant" then "model" else "user"
          parts := [m.content] }))

/-! ## Relay service: the POST /chat handler (index.ts lines 24-173) -/

/-- Value of the `messages` field of the request body: either an array of
messages or anything failing `Array.isArray`. -/
inductive ReqMessages where
  | arr (msgs : List Message)
  | notArray
deriving DecidableEq

/-- Request body of `POST /chat`.  The `model` field only selects the
backend model name and is threaded through to the backend stub; the
`stream` field defaults to `true` (index.ts line 39). -/
structure ChatRequest where
  messages : ReqMessages
  model : Option String
  stream : Option Bool
deriving DecidableEq

/-- Deterministic stubbed backend: given the converted history and the
final user prompt, it yields the list of chunk texts its stream would
emit (`chunk.text()` for each chunk of `result.stream`).  Its
non-streamed `result.response.text()` is the concatenation of the same
chunk texts, as produced by `backendFullText`. -/
def Backend : Type := List GContent → String → List String

/-- Concatenation of a list of strings, in order (the accumulated text a
stream produces). -/
def concatAll (l : List String) : String :=
  l.foldl (fun acc s => acc ++ s) ""

/-- Non-streamed response text of the stubbed deterministic backend: the
concatenation of the chunk texts it would stream for the same input. -/
def backendFullText (b : Backend) (history : List GContent) (prompt : String) : String :=
  concatAll (b history prompt)

/-- Observable result of one `POST /chat` request. -/
inductive ChatResult where
  | badRequest (error : String)
  | configError (error detail : String)
  | streamed (fragments : List String)
  | jsonMessage (message : String)
  | upstream (error detail hint : String)
deriving DecidableEq

/-- Model of the `POST /chat` handler (index.ts lines 24-173).
Guards run in source order: the `Array.isArray` check (line 27), then the
missing-credential check (line 31).  With an empty `messages` array the JS
code dereferences `messages[messages.length - 1].content` on `undefined`;
the thrown TypeError is caught by the surrounding try/catch and surfaces
as the 502 envelope of lines 165-172.  In the streamed branch (lines
142-156) each chunk text is emitted as one JSON line only when it is
truthy (non-empty); in the non-streamed branch (lines 157-164) the
backend's full response text is returned as `message`. -/
def chatHandler (configured : Bool) (req : ChatRequest) (backend : Backend) : ChatResult :=
  match req.messages with
  | .notArray => .badRequest "messages must be an array"
  | .arr msgs =>
    if !configured then
      .configError "gemini_not_configured"
        "GEMINI_API_KEY environment variable is not set"
    else
      let useStream := req.stream.getD true
      let history := toGeminiHistory msgs
      match msgs.getLast? with
      | none =>
        .upstream "gemini_request_failed"
          "Cannot read properties of undefined (reading content)"
          "Check your GEMINI_API_KEY and rate limits."
      | some lastMessage =>
        let chunks := backend history lastMessage.content
        if useStream then
          .streamed (chunks.filter (fun t => !t.isEmpty))
        else
          .jsonMessage (backendFullText backend history lastMessage.content)

/-! ## JSON model

The client and the store rely on the platform's `JSON.parse` and
`JSON.stringify`.  These external collaborators are modelled executably:
a JSON value AST covering the shapes this program produces (strings,
non-negative integers, arrays, objects), a printer following ECMA-262's
`JSON.stringify` (escaping `"` and backslash, short escapes for the
control characters b/f/n/r/t, `\u00XX` for other control characters), and
a recursive-descent parser.  The parser accepts leading and trailing
whitespace around the top-level value, which is all the whitespace any
input of this development carries (`JSON.stringify` emits none). -/

inductive Json where
  | str (s : String)
  | num (n : Nat)
  | arr (elems : List Json)
  | obj (fields : List (String × Json))

/-- Decimal digit character for `d < 10`. -/
def digitCh (d : Nat) : Char := Char.ofNat (48 + d)

/-- Decimal representation of a natural number, most significant digit
first (the output of `JSON.stringify` on a non-negative integer). -/
def natChars (n : Nat) : List Char :=
  if n = 0 then ['0'] else ((Nat.digits 10 n).map digitCh).reverse

/-- Lowercase hexadecimal digit character for `d < 16`. -/
def hexDigitCh (d : Nat) : Char :=
  if d < 10 then Char.ofNat (48 + d) else Char.ofNat (87 + d)

/-- Escape one character the way `JSON.stringify` quotes string
characters. -/
def escapeChar (c : Char) : List Char :=
  if c = '"' then ['\\', '"']
  else if c = '\\' then ['\\', '\\']
  else if c = '\x08' then ['\\', 'b']
  else if c = '\x0c' then ['\\', 'f']
  else if c = '\n' then ['\\', 'n']
  else if c = '\r' then ['\\', 'r']
  else if c = '\t' then ['\\', 't']
  else if c.toNat < 32 then
    ['\\', 'u', '0', '0', hexDigitCh (c.toNat / 16), hexDigitCh (c.toNat % 16)]
  else [c]

/-- Quoted form of a string, as `JSON.stringify` prints it. -/
def printString (s : String) : List Char :=
  '"' :: ((s.data.map escapeChar).flatten ++ ['"'])

mutual

/-- Printer for JSON values, following `JSON.stringify` (no inserted
whitespace, object fields in insertion order). -/
def printJson : Json → List Char
  | .str s => printString s
  | .num n => natChars n
  | .arr [] => ['[', ']']
  | .arr (j :: js) => '[' :: (printJson j ++ printElemsRest js)
  | .obj [] => ['\x7b', '\x7d']
  | .obj (kv :: kvs) => '\x7b' :: (printKV kv ++ printFieldsRest kvs)

/-- Remaining elements of a printed array: each preceded by a comma,
closed by a bracket. -/
def printElemsRest : List Json → List Char
  | [] => [']']
  | j :: js => ',' :: (printJson j ++ printElemsRest js)

/-- One printed object field: quoted key, colon, value. -/
def printKV : String × Json → List Char
  | (k, v) => printString k ++ (':' :: printJson v)

/-- Remaining fields of a printed object: each preceded by a comma,
closed by a brace. -/
def printFieldsRest : List (String × Json) → List Char
  | [] => ['\x7d']
  | kv :: kvs => ',' :: (printKV kv ++ printFieldsRest kvs)

end

/-- Printed JSON text of a value. -/
def printJsonStr (j : Json) : String := String.mk (printJson j)

/-- Hexadecimal digit value of a character, if it is one. -/
def parseHexDigit (c : Char) : Option Nat :=
  if '0' ≤ c ∧ c ≤ '9' then some (c.toNat - 48)
  else if 'a' ≤ c ∧ c ≤ 'f' then some (c.toNat - 87)
  else if 'A' ≤ c ∧ c ≤ 'F' then some (c.toNat - 55)
  else none

/-- Body of a JSON string after its opening quote: consume characters and
escapes until the closing quote, returning the decoded string and the
rest of the input.  The accumulator holds decoded characters in reverse
order. -/
def parseStringBody : List Char → List Char → Option (String × List Char)
  | _, [] => none
  | acc, c :: cs =>
    if c = '"' then some (String.mk acc.reverse, cs)
    else if c = '\\' then
      match cs with
      | [] => none
      | e :: cs2 =>
        if e = '"' then parseStringBody ('"' :: acc) cs2
        else if e = '\\' then parseStringBody ('\\' :: acc) cs2
        else if e = '/' then parseStringBody ('/' :: acc) cs2
        else if e = 'b' then parseStringBody ('\x08' :: acc) cs2
        else if e = 'f' then parseStringBody ('\x0c' :: acc) cs2
        else if e = 'n' then parseStringBody ('\n' :: acc) cs2
        else if e = 'r' then parseStringBody ('\r' :: acc) cs2
        else if e = 't' then parseStringBody ('\t' :: acc) cs2
        else if e = 'u' then
          match cs2 with
          | h1 :: h2 :: h3 :: h4 :: cs3 =>
            match parseHexDigit h1, parseHexDigit h2, parseHexDigit h3, parseHexDigit h4 with
            | some a, some b, some c2, some d =>
              parseStringBody (Char.ofNat (((a * 16 + b) * 16 + c2) * 16 + d) :: acc) cs3
            | _, _, _, _ => none
          | _ => none
        else none
    else parseStringBody (c :: acc) cs

/-- Longest leading run of decimal digits of the input, paired with the
rest. -/
def spanDigits : List Char → List Char × List Char
  | [] => ([], [])
  | c :: cs =>
    if c.isDigit then
      let p := spanDigits cs
      (c :: p.1, p.2)
    else ([], c :: cs)

/-- Numeric value of a big-endian list of decimal digit characters. -/
def digitsToNat (ds : List Char) : Nat :=
  ds.foldl (fun a c => 10 * a + (c.toNat - 48)) 0

mutual

/-- Recursive-descent JSON value parser.  The fuel argument bounds
nesting; `jsonParse` supplies more fuel than any input can need. -/
def parseValue : Nat → List Char → Option (Json × List Char)
  | 0, _ => none
  | _ + 1, [] => none
  | f + 1, c :: cs =>
    if c = '"' then
      (parseStringBody [] cs).map (fun p => (Json.str p.1, p.2))
    else if c = '[' then
      match cs with
      | [] => none
      | d :: cs2 =>
        if d = ']' then some (Json.arr [], cs2)
        else
          match parseValue f (d :: cs2) with
          | some (j, rest) => parseArrTail f [j] rest
          | none => none
    else if c = '\x7b' then
      match cs with
      | [] => none
      | d :: cs2 =>
        if d = '\x7d' then some (Json.obj [], cs2)
        else parseObjItem f [] (d :: cs2)
    else if c.isDigit then
      let p := spanDigits (c :: cs)
      some (Json.num (digitsToNat p.1), p.2)
    else none

/-- Continuation of an array after a parsed element: a closing bracket
ends it, a comma is followed by another element. -/
def parseArrTail : Nat → List Json → List Char → Option (Json × List Char)
  | _, acc, ']' :: cs => some (Json.arr acc.reverse, cs)
  | 0, _, _ => none
  | f + 1, acc, ',' :: cs =>
    match parseValue f cs with
    | some (j, rest) => parseArrTail f (j :: acc) rest
    | none => none
  | _, _, _ => none

/-- One object field: quoted key, colon, value, then the object
continuation. -/
def parseObjItem : Nat → List (String × Json) → List Char → Option (Json × List Char)
  | 0, _, _ => none
  | f + 1, acc, '"' :: cs =>
    match parseStringBody [] cs with
    | some (k, ':' :: rest) =>
      match parseValue f rest with
      | some (v, rest2) => parseObjTail f ((k, v) :: acc) rest2
      | none => none
    | _ => none
  | _, _, _ => none

/-- Continuation of an object after a parsed field: a closing brace ends
it, a comma is followed by another field. -/
def parseObjTail : Nat → List (String × Json) → List Char → Option (Json × List Char)
  | _, acc, '\x7d' :: cs => some (Json.obj acc.reverse, cs)
  | 0, _, _ => none
  | f + 1, acc, ',' :: cs => parseObjItem f acc cs
  | _, _, _ => none

end

/-- JSON whitespace. -/
def isJsonWs (c : Char) : Bool :=
  c = ' ' || c = '\t' || c = '\n' || c = '\r'

/-- Model of `JSON.parse`: parse one value, allowing surrounding
whitespace; `none` models a thrown SyntaxError.  Interior whitespace and
the value forms this program never produces (null, booleans, negative or
fractional numbers) are outside the modelled input space. -/
def jsonParse (s : String) : Option Json :=
  let cs := s.data.dropWhile isJsonWs
  match parseValue (cs.length + 1) cs with
  | some (j, rest) => if rest.dropWhile isJsonWs = [] then some j else none
  | none => none

/-- Statement form used by the printer-parser round trip: the
continuation after a printed value never starts with a digit (so the
number parser cannot overrun into it). -/
def noLeadingDigit (rest : List Char) : Prop :=
  ∀ c, rest.head? = some c → c.isDigit = false

/-- Round-trip property of one JSON value: given at least as much fuel as
the printed length, the parser reads the printed form back exactly and
leaves the continuation untouched. -/
def ParsesBack (j : Json) : Prop :=
  ∀ f rest, (printJson j).length ≤ f → noLeadingDigit rest →
    parseValue f (printJson j ++ rest) = some (j, rest)

/-! ## Streaming client (App.tsx lines 359-446)

The stream-read loop decodes each received chunk, splits it on newlines,
drops whitespace-only lines, parses each remaining line as JSON (a parse
failure silently skips the line), and appends `parsed.message?.content`
to the accumulated buffer when it is a truthy (non-empty) string. -/

/-- Field lookup on a JSON object (`undefined` on anything else).  The
objects this program reads have distinct keys, so first-match lookup
agrees with JS property access. -/
def jsonField (j : Json) (key : String) : Option Json :=
  match j with
  | .obj fields => (fields.find? (fun kv => kv.1 == key)).map (fun kv => kv.2)
  | _ => none

/-- Content of one parsed stream fragment, when
`parsed.message?.content` is a truthy string (App.tsx line 410).
Non-string `content` values never occur in the modelled wire format. -/
def fragmentContent (j : Json) : Option String :=
  match jsonField j "message" with
  | some m =>
    match jsonField m "content" with
    | some (.str s) => if s.isEmpty then none else some s
    | _ => none
  | _ => none

/-- Process one line of a received chunk (App.tsx lines 407-422): parse
it as JSON and append the fragment content to the buffer; skip the line
on parse failure or missing/empty content. -/
def processLine (acc : String) (line : String) : String :=
  match jsonParse line with
  | some j =>
    match fragmentContent j with
    | some s => acc ++ s
    | none => acc
  | none => acc

/-- Process one received chunk (App.tsx lines 404-422): split on
newlines, drop whitespace-only lines, process each remaining line. -/
def processChunk (acc : String) (chunk : String) : String :=
  ((jsSplitNewline chunk).filter (fun l => !(jsTrim l).isEmpty)).foldl processLine acc

/-- Final accumulated assistant text after consuming a whole stream of
chunks. -/
def processStream (chunks : List String) : String :=
  chunks.foldl processChunk ""

/-! ## Conversation store and client state (App.tsx) -/

/-- One saved conversation (App.tsx `Chat`). -/
structure Chat where
  id : String
  title : String
  messages : List Message
  createdAt : Nat
deriving DecidableEq

/-- The client state touched by the modelled operations.  Peripheral
state (auth, notebooks, scheduled actions, activity log, theming, speech
flags) is out of scope per the spec's non-goals. -/
structure ClientState where
  messages : List Message
  input : String
  status : String
  isGenerating : Bool
  chats : List Chat
  currentChatId : Option String
deriving DecidableEq

/-- Initial message list (App.tsx lines 136-141): the assistant
greeting shown in a fresh conversation. -/
def initialMessages : List Message :=
  [⟨"assistant", "Hi, I am AVAS. Ask me anything or tap the mic to speak."⟩]

/-- Chat title derivation (App.tsx lines 530-536): first user turn's
content, truncated to 50 characters with an ellipsis marker. -/
def generateChatTitle (msgs : List Message) : String :=
  match msgs.find? (fun m => m.role == "user") with
  | some u => u.content.take 50 ++ (if 50 < u.content.length then "..." else "")
  | none => "New chat"

/-- Persist a finished turn sequence (App.tsx lines 509-528): update the
current chat in place, or create a new chat (its id is the current time)
and make it current. -/
def saveChatOp (st : ClientState) (msgs : List Message) (now : Nat) : ClientState :=
  match st.currentChatId with
  | some cid =>
    { st with chats := st.chats.map (fun c =>
        if c.id == cid then { c with messages := msgs, title := generateChatTitle msgs } else c) }
  | none =>
    let newChat : Chat :=
      { id := toString now, title := generateChatTitle msgs, messages := msgs, createdAt := now }
    { st with chats := newChat :: st.chats, currentChatId := some newChat.id }

/-- Outcome of the `fetch` to the relay, as observed by `sendMessage`:
a non-2xx response carrying an error detail, a rejection before any byte
(network failure), an abort raised mid-stream after some chunks were
consumed, or a complete stream of chunks. -/
inductive FetchOutcome where
  | httpError (detail : String)
  | networkError
  | aborted (chunksBeforeAbort : List String)
  | stream (chunks : List String)

/-- Model of `sendMessage` (App.tsx lines 359-446), returning the state
after the request settles.  Mid-flight transients (the empty placeholder
assistant turn appended at line 371, live partial-buffer updates, and the
"Stopped" status set by `stopGenerating` at lines 816-820 just before the
abort propagates) are overwritten by the settled state and do not appear
in it.  The speech-synthesis call and activity log are out of scope. -/
def sendMessage (st : ClientState) (text : String) (outcome : FetchOutcome) (now : Nat) :
    ClientState :=
  if (jsTrim text).isEmpty || st.isGenerating then st
  else
    let nextMessages := st.messages ++ [⟨"user", text⟩]
    match outcome with
    | .httpError detail =>
      { st with
          messages := nextMessages
          input := ""
          status := "Error: " ++ detail
          isGenerating := false }
    | .networkError =>
      { st with
          messages := nextMessages
          input := ""
          status := "Network error. Is the API running?"
          isGenerating := false }
    | .aborted _ =>
      { st with
          messages := nextMessages
          input := ""
          status := "Cancelled"
          isGenerating := false }
    | .stream chunks =>
      let assistantMessage := processStream chunks
      let finalMessages := nextMessages ++ [⟨"assistant", assistantMessage⟩]
      let st2 :=
        { st with
            messages := finalMessages
            input := ""
            status := if assistantMessage.isEmpty then "No reply from model." else "Ready"
            isGenerating := false }
      saveChatOp st2 finalMessages now

/-- Model of `clearChat` (App.tsx lines 503-507). -/
def clearChat (st : ClientState) : ClientState :=
  { st with messages := initialMessages, status := "Ready", currentChatId := none }

/-- Model of `deleteChat` (App.tsx lines 548-553): drop the chats whose
id matches, then reset to a fresh conversation when the deleted chat was
the current one. -/
def deleteChat (st : ClientState) (chatId : String) : ClientState :=
  let st2 := { st with chats := st.chats.filter (fun c => c.id != chatId) }
  if st.currentChatId == some chatId then clearChat st2 else st2

/-! ## Durable storage (App.tsx lines 102-113, 281-283) -/

/-- The localStorage substrate: a string-keyed map of string blobs. -/
def Store : Type := String → Option String

/-- Model of `localStorage.setItem`. -/
def setItem (store : Store) (key value : String) : Store :=
  fun k => if k = key then some value else store k

/-- JSON form of a message, field order as constructed in the source. -/
def msgToJson (m : Message) : Json :=
  .obj [("role", .str m.role), ("content", .str m.content)]

/-- JSON form of a chat, field order as constructed in `saveChat`. -/
def chatToJson (c : Chat) : Json :=
  .obj [("id", .str c.id), ("title", .str c.title),
        ("messages", .arr (c.messages.map msgToJson)), ("createdAt", .num c.createdAt)]

/-- JSON form of the whole chat collection. -/
def chatsToJson (cs : List Chat) : Json :=
  .arr (cs.map chatToJson)

/-- Element-wise reading of a parsed array: all elements must decode. -/
def listMapOpt (f : α → Option β) : List α → Option (List β)
  | [] => some []
  | a :: t =>
    match f a, listMapOpt f t with
    | some b, some bs => some (b :: bs)
    | _, _ => none

/-- Typed reading of a parsed message.  JS reads the parsed value through
an unchecked cast; this decoder makes the expected shape explicit. -/
def msgFromJson (j : Json) : Option Message :=
  match jsonField j "role", jsonField j "content" with
  | some (.str r), some (.str c) => some ⟨r, c⟩
  | _, _ => none

/-- Typed reading of a parsed chat. -/
def chatFromJson (j : Json) : Option Chat :=
  match jsonField j "id", jsonField j "title", jsonField j "messages",
        jsonField j "createdAt" with
  | some (.str i), some (.str t), some (.arr ms), some (.num n) =>
    match listMapOpt msgFromJson ms with
    | some msgs => some ⟨i, t, msgs, n⟩
    | none => none
  | _, _, _, _ => none

/-- Typed reading of a parsed chat collection. -/
def chatsFromJson (j : Json) : Option (List Chat) :=
  match j with
  | .arr l => listMapOpt chatFromJson l
  | _ => none

/-- Model of the chats persistence effect (App.tsx lines 281-283):
`localStorage.setItem("avas-chats", JSON.stringify(chats))` on every
mutation, a synchronous whole-collection overwrite. -/
def saveChats (store : Store) (cs : List Chat) : Store :=
  setItem store "avas-chats" (printJsonStr (chatsToJson cs))

/-- Model of startup loading, `readJson("avas-chats", [])` (App.tsx
lines 102-109, 217): an absent or falsy blob and a parse failure both
fall back to the empty collection; a parsed blob is read through the
typed decoder (the JS cast is unchecked, so an unexpected shape also
degrades to the fallback here). -/
def loadChats (store : Store) : List Chat :=
  match store "avas-chats" with
  | none => []
  | some raw =>
    if raw.isEmpty then []
    else
      match jsonParse raw with
      | none => []
      | some j => (chatsFromJson j).getD []

/-! ## Streamed wire lines (index.ts lines 149-156) -/

/-- One line the relay writes for a streamed fragment:
`JSON.stringify(\x7b message: \x7b content: text \x7d \x7d) + "\n"`. -/
def fragmentLine (t : String) : String :=
  printJsonStr (Json.obj [("message", Json.obj [("content", Json.str t)])]) ++ "\n"

/-- All lines the relay writes for a streamed response. -/
def streamedLines (fragments : List String) : List String :=
  fragments.map fragmentLine

/-! ## Basic lemmas about the history filter -/

theorem enumFrom_filter_pos (l : List GContent) (n : Nat) (hn : 0 < n) :
    (List.enumFrom n l).filter (fun p => decide (0 < p.1)) = List.enumFrom n l := by
  induction l generalizing n with
  | nil => rfl
  | cons a t ih =>
    simp only [List.enumFrom, List.filter]
    rw [decide_eq_true hn]
    rw [ih (n + 1) (Nat.succ_pos n)]

theorem enumFrom_map_snd (l : List GContent) (n : Nat) :
    (List.enumFrom n l).map (fun p => p.2) = l := by
  induction l generalizing n with
  | nil => rfl
  | cons a t ih =>
    simp only [List.enumFrom, List.map_cons, List.cons.injEq, true_and]
    exact ih (n + 1)

theorem dropIndexZero_eq_tail (l : List GContent) : dropIndexZero l = l.tail := by
  cases l with
  | nil => rfl
  | cons a t =>
    unfold dropIndexZero
    show ((List.enumFrom 0 (a :: t)).filter (fun p => decide (0 < p.1))).map (fun p => p.2) = t
    simp only [List.enumFrom, List.filter]
    rw [show (decide (0 < (0, a).1)) = false by rfl]
    rw [enumFrom_filter_pos t 1 Nat.one_pos, enumFrom_map_snd]

/-! ## Helper lemmas for the relay -/

theorem foldl_append_filter_nonempty (l : List String) (a : String) :
    (l.filter (fun t => !t.isEmpty)).foldl (fun acc s => acc ++ s) a
      = l.foldl (fun acc s => acc ++ s) a := by
  induction l generalizing a with
  | nil => rfl
  | cons s t ih =>
    rw [List.filter_cons]
    cases hs : s.isEmpty with
    | true =>
      have hs' : s = "" := (String.isEmpty_iff s).mp hs
      subst hs'
      rw [if_neg (by decide), ih a, List.foldl_cons]
      simp
    | false =>
      rw [if_pos (by simp [hs]), List.foldl_cons, List.foldl_cons]
      exact ih (a ++ s)

theorem concatAll_filter_nonempty (l : List String) :
    concatAll (l.filter (fun t => !t.isEmpty)) = concatAll l :=
  foldl_append_filter_nonempty l ""

/-! ## Claim theorems: relay -/

/-- C1 (code-bug evidence): on the request messages
`[assistant "a", assistant "b", user "q"]` the relay's history conversion
forwards `[(model, ["b"])]`: a non-empty history whose first turn is not
a user turn.  The guard at index.ts lines 134-137 drops only the first
element of the history (`filter((_, index) => index > 0)`), not the whole
leading run of non-user turns, contradicting the claim and the source's
own comment ("Ensure history starts with a user message"). -/
theorem history_filter_leading_run_bug :
    toGeminiHistory [⟨"assistant", "a"⟩, ⟨"assistant", "b"⟩, ⟨"user", "q"⟩]
      = [⟨"model", ["b"]⟩]
    ∧ (toGeminiHistory [⟨"assistant", "a"⟩, ⟨"assistant", "b"⟩, ⟨"user", "q"⟩]).head?.map
        GContent.role ≠ some "user"
    ∧ toGeminiHistory [⟨"assistant", "a"⟩, ⟨"assistant", "b"⟩, ⟨"user", "q"⟩] ≠ [] := by
  refine ⟨by decide, by decide, by decide⟩

/-- C2: with the backend credential missing, `POST /chat` answers the
500 configuration-error envelope for every array-shaped `messages` body,
every model choice and stream flag, and uniformly in the backend (no
backend call can influence the result). -/
theorem chat_not_configured_500 (msgs : List Message) (model : Option String)
    (stream : Option Bool) (backend : Backend) :
    chatHandler false ⟨.arr msgs, model, stream⟩ backend
      = .configError "gemini_not_configured"
          "GEMINI_API_KEY environment variable is not set" := rfl

/-- C5: the leading-turn guard leaves any history that already starts
with a user turn unchanged. -/
theorem history_filter_idempotent (m : GContent) (t : List GContent)
    (h : m.role = "user") : ensureUserFirst (m :: t) = m :: t := by
  unfold ensureUserFirst
  rw [if_neg]
  intro hc
  exact hc.2 (by simp [h])

/-- Witness for C5 at a concrete one-element history. -/
theorem history_filter_idempotent_witness :
    ensureUserFirst [⟨"user", ["hi"]⟩] = [⟨"user", ["hi"]⟩] :=
  history_filter_idempotent ⟨"user", ["hi"]⟩ [] rfl

/-- C4: whenever the streamed relay emits a fragment sequence for a given
input, the non-streamed relay on the same input returns exactly the
concatenation of those fragments, for every stubbed deterministic
backend. -/
theorem streamed_concat_eq_nonstreamed (backend : Backend) (msgs : List Message)
    (model : Option String) (fragments : List String)
    (h : chatHandler true ⟨.arr msgs, model, some true⟩ backend = .streamed fragments) :
    chatHandler true ⟨.arr msgs, model, some false⟩ backend
      = .jsonMessage (concatAll fragments) := by
  cases hl : msgs.getLast? with
  | none => simp [chatHandler, hl] at h
  | some last =>
    simp only [chatHandler, hl, Option.getD_some, Bool.not_true, Bool.false_eq_true,
      if_false, ChatResult.streamed.injEq, ChatResult.jsonMessage.injEq] at h ⊢
    rw [if_pos trivial] at h
    simp only [ChatResult.streamed.injEq] at h
    rw [← h, backendFullText, concatAll_filter_nonempty]

/-- Witness for C4: a stub backend streaming "Hel" then "lo!" for the
single-turn input yields the non-streamed response "Hello!". -/
theorem streamed_concat_eq_nonstreamed_witness :
    chatHandler true ⟨.arr [⟨"user", "Hi"⟩], none, some false⟩ (fun _ _ => ["Hel", "lo!"])
      = .jsonMessage "Hello!" := by
  have h := streamed_concat_eq_nonstreamed (fun _ _ => ["Hel", "lo!"]) [⟨"user", "Hi"⟩]
    none ["Hel", "lo!"] (by decide)
  exact h.trans (by decide)

/-! ## Claim theorems: streaming client -/

/-- C3: for the stream bytes
`\x7b"message":\x7b"content":"a"\x7d\x7d \ NOTJSON \ \x7b"message":\x7b"content":"b"\x7d\x7d \ `
(newline-separated), the client's read loop silently skips the malformed
middle line and accumulates the final buffer "ab". -/
theorem stream_skips_malformed_lines :
    processStream
      ["\x7b\"message\":\x7b\"content\":\"a\"\x7d\x7d\nNOTJSON\n\x7b\"message\":\x7b\"content\":\"b\"\x7d\x7d\n"]
      = "ab" := by decide

/-- C7: cancelling an in-flight streamed request after any number of
consumed chunks settles with status "Cancelled", a conversation holding
exactly the pre-send turns plus the just-sent user turn (the partially
generated assistant text is discarded), and an unchanged chat collection
(the partial text is never persisted). -/
theorem cancel_discards_partial_turn (st : ClientState) (text : String)
    (chunksSoFar : List String) (now : Nat)
    (htext : jsTrim text ≠ "") (hgen : st.isGenerating = false) :
    (sendMessage st text (.aborted chunksSoFar) now).status = "Cancelled"
    ∧ (sendMessage st text (.aborted chunksSoFar) now).messages
        = st.messages ++ [⟨"user", text⟩]
    ∧ (sendMessage st text (.aborted chunksSoFar) now).chats = st.chats
    ∧ (sendMessage st text (.aborted chunksSoFar) now).currentChatId = st.currentChatId
    ∧ (sendMessage st text (.aborted chunksSoFar) now).isGenerating = false := by
  have hempty : (jsTrim text).isEmpty = false := by
    cases he : (jsTrim text).isEmpty with
    | true => exact absurd ((String.isEmpty_iff (jsTrim text)).mp he) htext
    | false => rfl
  unfold sendMessage
  rw [hempty, hgen]
  exact ⟨rfl, rfl, rfl, rfl, rfl⟩

/-- Witness for C7 at a concrete idle state with two consumed chunks. -/
theorem cancel_discards_partial_turn_witness :
    (sendMessage ⟨initialMessages, "", "Ready", false, [], none⟩ "Hi"
        (.aborted ["He", "llo"]) 7).status = "Cancelled"
    ∧ (sendMessage ⟨initialMessages, "", "Ready", false, [], none⟩ "Hi"
        (.aborted ["He", "llo"]) 7).messages = initialMessages ++ [⟨"user", "Hi"⟩]
    ∧ (sendMessage ⟨initialMessages, "", "Ready", false, [], none⟩ "Hi"
        (.aborted ["He", "llo"]) 7).chats = [] := by
  have h := cancel_discards_partial_turn ⟨initialMessages, "", "Ready", false, [], none⟩
    "Hi" ["He", "llo"] 7 (by decide) rfl
  exact ⟨h.1, h.2.1, h.2.2.1⟩

/-- C8: a network failure before any response byte settles with the
visible network-error status, a conversation holding exactly the pre-send
turns plus the just-sent user turn (the speculative empty placeholder
assistant turn is discarded), and an unchanged chat collection. -/
theorem network_error_rollback (st : ClientState) (text : String) (now : Nat)
    (htext : jsTrim text ≠ "") (hgen : st.isGenerating = false) :
    (sendMessage st text .networkError now).status = "Network error. Is the API running?"
    ∧ (sendMessage st text .networkError now).messages = st.messages ++ [⟨"user", text⟩]
    ∧ (sendMessage st text .networkError now).chats = st.chats
    ∧ (sendMessage st text .networkError now).isGenerating = false := by
  have hempty : (jsTrim text).isEmpty = false := by
    cases he : (jsTrim text).isEmpty with
    | true => exact absurd ((String.isEmpty_iff (jsTrim text)).mp he) htext
    | false => rfl
  unfold sendMessage
  rw [hempty, hgen]
  exact ⟨rfl, rfl, rfl, rfl⟩

/-- Witness for C8 at a concrete idle state. -/
theorem network_error_rollback_witness :
    (sendMessage ⟨initialMessages, "", "Ready", false, [], none⟩ "Hi"
        .networkError 7).status = "Network error. Is the API running?"
    ∧ (sendMessage ⟨initialMessages, "", "Ready", false, [], none⟩ "Hi"
        .networkError 7).messages = initialMessages ++ [⟨"user", "Hi"⟩] := by
  have h := network_error_rollback ⟨initialMessages, "", "Ready", false, [], none⟩
    "Hi" 7 (by decide) rfl
  exact ⟨h.1, h.2.1⟩

/-! ## Claim theorems: conversation store -/

/-- C9: `deleteChat` keeps exactly the chats whose id differs from the
deleted one (in order, unchanged), and when the deleted chat is the
current one the client resets to the fresh initial conversation: the
greeting message list, no current chat id, status "Ready". -/
theorem deleteChat_removes_matching (st : ClientState) (cid : String) :
    (deleteChat st cid).chats = st.chats.filter (fun c => c.id != cid)
    ∧ (∀ c ∈ st.chats, c.id ≠ cid → c ∈ (deleteChat st cid).chats)
    ∧ (∀ c ∈ (deleteChat st cid).chats, c.id ≠ cid)
    ∧ (st.currentChatId = some cid →
        (deleteChat st cid).messages = initialMessages
        ∧ (deleteChat st cid).currentChatId = none
        ∧ (deleteChat st cid).status = "Ready") := by
  have hchats : (deleteChat st cid).chats = st.chats.filter (fun c => c.id != cid) := by
    unfold deleteChat
    cases hc : st.currentChatId == some cid with
    | true => rfl
    | false => rfl
  refine ⟨hchats, ?_, ?_, ?_⟩
  · intro c hmem hne
    rw [hchats, List.mem_filter]
    exact ⟨hmem, by simpa using hne⟩
  · intro c hmem
    rw [hchats, List.mem_filter] at hmem
    simpa using hmem.2
  · intro hcur
    have hc : (st.currentChatId == some cid) = true := by
      rw [hcur]; exact beq_self_eq_true (some cid)
    unfold deleteChat
    rw [hc]
    exact ⟨rfl, rfl, rfl⟩

/-- Witness for C9: deleting the active chat "1" from a two-chat
collection keeps only chat "2" and resets the active conversation. -/
theorem deleteChat_removes_matching_witness :
    (deleteChat ⟨[⟨"user", "x"⟩], "", "Ready", false,
        [⟨"1", "t", [], 0⟩, ⟨"2", "u", [], 0⟩], some "1"⟩ "1").chats
      = [⟨"2", "u", [], 0⟩]
    ∧ (deleteChat ⟨[⟨"user", "x"⟩], "", "Ready", false,
        [⟨"1", "t", [], 0⟩, ⟨"2", "u", [], 0⟩], some "1"⟩ "1").messages = initialMessages
    ∧ (deleteChat ⟨[⟨"user", "x"⟩], "", "Ready", false,
        [⟨"1", "t", [], 0⟩, ⟨"2", "u", [], 0⟩], some "1"⟩ "1").currentChatId = none := by
  have h := deleteChat_removes_matching ⟨[⟨"user", "x"⟩], "", "Ready", false,
    [⟨"1", "t", [], 0⟩, ⟨"2", "u", [], 0⟩], some "1"⟩ "1"
  refine ⟨h.1.trans (by decide), (h.2.2.2 rfl).1, (h.2.2.2 rfl).2.1⟩

/-! ## Printer-parser round trip -/

theorem string_mk_data (s : String) : String.mk s.data = s := rfl

theorem json_ind (P : Json → Prop)
    (hstr : ∀ s, P (.str s)) (hnum : ∀ n, P (.num n))
    (harr : ∀ es, (∀ j ∈ es, P j) → P (.arr es))
    (hobj : ∀ fs, (∀ kv ∈ fs, P kv.2) → P (.obj fs)) :
    ∀ j, P j := by
  have H : ∀ n j, sizeOf j ≤ n → P j := by
    intro n
    induction n with
    | zero =>
      intro j hj
      cases j <;> simp only [Json.str.sizeOf_spec, Json.num.sizeOf_spec,
        Json.arr.sizeOf_spec, Json.obj.sizeOf_spec] at hj <;> omega
    | succ n ih =>
      intro j hj
      cases j with
      | str s => exact hstr s
      | num k => exact hnum k
      | arr es =>
        refine harr es (fun e he => ih e ?_)
        have hlt := List.sizeOf_lt_of_mem he
        simp only [Json.arr.sizeOf_spec] at hj
        omega
      | obj fs =>
        refine hobj fs (fun kv hkv => ih kv.2 ?_)
        have hlt := List.sizeOf_lt_of_mem hkv
        have hkv2 : sizeOf kv.2 < sizeOf kv := by
          obtain ⟨a, b⟩ := kv
          simp only [Prod.mk.sizeOf_spec]
          omega
        simp only [Json.obj.sizeOf_spec] at hj
        omega
  exact fun j => H (sizeOf j) j le_rfl

theorem parseHexDigit_hexDigitCh : ∀ d < 16, parseHexDigit (hexDigitCh d) = some d := by
  decide

theorem parseStringBody_u (acc cont : List Char) (x y : Char) (a b : Nat)
    (hx : parseHexDigit x = some a) (hy : parseHexDigit y = some b) :
    parseStringBody acc ('\\' :: 'u' :: '0' :: '0' :: x :: y :: cont)
      = parseStringBody (Char.ofNat (a * 16 + b) :: acc) cont := by
  conv_lhs => unfold parseStringBody
  simp +decide [hx, hy, show parseHexDigit '0' = some 0 from rfl]

theorem parseStringBody_escapeChar (c : Char) (acc cont : List Char) :
    parseStringBody acc (escapeChar c ++ cont) = parseStringBody (c :: acc) cont := by
  by_cases h1 : c = '"'
  · subst h1; simp +decide [escapeChar, List.cons_append]
    conv_lhs => unfold parseStringBody
    simp +decide
  by_cases h2 : c = '\\'
  · subst h2; simp +decide [escapeChar, List.cons_append]
    conv_lhs => unfold parseStringBody
    simp +decide
  by_cases h3 : c = '\x08'
  · subst h3; simp +decide [escapeChar, List.cons_append]
    conv_lhs => unfold parseStringBody
    simp +decide
  by_cases h4 : c = '\x0c'
  · subst h4; simp +decide [escapeChar, List.cons_append]
    conv_lhs => unfold parseStringBody
    simp +decide
  by_cases h5 : c = '\n'
  · subst h5; simp +decide [escapeChar, List.cons_append]
    conv_lhs => unfold parseStringBody
    simp +decide
  by_cases h6 : c = '\r'
  · subst h6; simp +decide [escapeChar, List.cons_append]
    conv_lhs => unfold parseStringBody
    simp +decide
  by_cases h7 : c = '\t'
  · subst h7; simp +decide [escapeChar, List.cons_append]
    conv_lhs => unfold parseStringBody
    simp +decide
  by_cases h8 : c.toNat < 32
  · have he : escapeChar c
        = ['\\', 'u', '0', '0', hexDigitCh (c.toNat / 16), hexDigitCh (c.toNat % 16)] := by
      unfold escapeChar
      rw [if_neg h1, if_neg h2, if_neg h3, if_neg h4, if_neg h5, if_neg h6, if_neg h7,
        if_pos h8]
    rw [he]
    show parseStringBody acc
      ('\\' :: 'u' :: '0' :: '0' :: hexDigitCh (c.toNat / 16)
        :: hexDigitCh (c.toNat % 16) :: cont) = parseStringBody (c :: acc) cont
    rw [parseStringBody_u acc cont _ _ (c.toNat / 16) (c.toNat % 16)
      (parseHexDigit_hexDigitCh (c.toNat / 16) (by omega))
      (parseHexDigit_hexDigitCh (c.toNat % 16) (by omega))]
    have harith : c.toNat / 16 * 16 + c.toNat % 16 = c.toNat := by omega
    rw [harith, Char.ofNat_toNat]
  · have he : escapeChar c = [c] := by
      unfold escapeChar
      rw [if_neg h1, if_neg h2, if_neg h3, if_neg h4, if_neg h5, if_neg h6, if_neg h7,
        if_neg h8]
    rw [he]
    show parseStringBody acc (c :: cont) = parseStringBody (c :: acc) cont
    conv_lhs => unfold parseStringBody
    rw [if_neg h1, if_neg h2]

theorem parseStringBody_printed (s : List Char) (acc rest : List Char) :
    parseStringBody acc ((s.map escapeChar).flatten ++ '"' :: rest)
      = some (String.mk (acc.reverse ++ s), rest) := by
  induction s generalizing acc with
  | nil =>
    simp only [List.map_nil, List.flatten_nil, List.nil_append, List.append_nil]
    conv_lhs => unfold parseStringBody
    simp +decide
  | cons c cs ih =>
    rw [List.map_cons, List.flatten_cons, List.append_assoc, parseStringBody_escapeChar,
      ih (c :: acc)]
    simp [List.reverse_cons, List.append_assoc]

theorem digitCh_isDigit : ∀ d < 10, (digitCh d).isDigit = true := by decide

theorem digitCh_val : ∀ d < 10, (digitCh d).toNat - 48 = d := by decide

theorem natChars_ne_nil (n : Nat) : natChars n ≠ [] := by
  unfold natChars
  split
  · simp
  · next hn =>
    simp only [ne_eq, List.reverse_eq_nil_iff, List.map_eq_nil_iff]
    exact Nat.digits_ne_nil_iff_ne_zero.mpr hn

theorem natChars_all_digits (n : Nat) : ∀ c ∈ natChars n, c.isDigit = true := by
  unfold natChars
  split
  · intro c hc
    simp only [List.mem_singleton] at hc
    subst hc
    decide
  · intro c hc
    rw [List.mem_reverse, List.mem_map] at hc
    obtain ⟨d, hd, rfl⟩ := hc
    exact digitCh_isDigit d (Nat.digits_lt_base (by norm_num) hd)

theorem foldl_digitCh_vals (l : List Nat) (a : Nat) (h : ∀ d ∈ l, d < 10) :
    l.foldl (fun acc d => 10 * acc + ((digitCh d).toNat - 48)) a
      = l.foldl (fun acc d => 10 * acc + d) a := by
  induction l generalizing a with
  | nil => rfl
  | cons d t ih =>
    simp only [List.foldl_cons]
    rw [digitCh_val d (h d (List.mem_cons_self d t))]
    exact ih _ (fun x hx => h x (List.mem_cons_of_mem d hx))

theorem foldl_reverse_ofDigits (l : List Nat) :
    l.reverse.foldl (fun acc d => 10 * acc + d) 0 = Nat.ofDigits 10 l := by
  induction l with
  | nil => simp [Nat.ofDigits_nil]
  | cons d t ih =>
    rw [List.reverse_cons, List.foldl_append, ih, List.foldl_cons, List.foldl_nil,
      Nat.ofDigits_cons]
    omega

theorem digitsToNat_natChars (n : Nat) : digitsToNat (natChars n) = n := by
  by_cases hn : n = 0
  · subst hn; decide
  · unfold natChars
    rw [if_neg hn]
    unfold digitsToNat
    rw [← List.map_reverse, List.foldl_map]
    rw [foldl_digitCh_vals _ _ (fun d hd =>
      Nat.digits_lt_base (by norm_num) (List.mem_reverse.mp hd))]
    rw [foldl_reverse_ofDigits, Nat.ofDigits_digits]

theorem spanDigits_printed (ds rest : List Char) (hds : ∀ c ∈ ds, c.isDigit = true)
    (hrest : noLeadingDigit rest) : spanDigits (ds ++ rest) = (ds, rest) := by
  induction ds with
  | nil =>
    cases rest with
    | nil => rfl
    | cons c t =>
      have hc : c.isDigit = false := hrest c rfl
      simp only [List.nil_append]
      unfold spanDigits
      rw [hc]
      simp
  | cons c t ih =>
    have hc : c.isDigit = true := hds c (List.mem_cons_self c t)
    simp only [List.cons_append]
    unfold spanDigits
    rw [hc]
    simp only [if_true]
    rw [ih (fun x hx => hds x (List.mem_cons_of_mem c hx)) ]

theorem printJson_head (j : Json) :
    ∃ c cr, printJson j = c :: cr
      ∧ (c = '"' ∨ c.isDigit = true ∨ c = '[' ∨ c = '\x7b') := by
  cases j with
  | str s => exact ⟨'"', _, rfl, Or.inl rfl⟩
  | num n =>
    obtain ⟨c, cr, hc⟩ : ∃ c cr, natChars n = c :: cr := by
      cases hn : natChars n with
      | nil => exact absurd hn (natChars_ne_nil n)
      | cons a b => exact ⟨a, b, rfl⟩
    refine ⟨c, cr, ?_, Or.inr (Or.inl ?_)⟩
    · show natChars n = c :: cr
      exact hc
    · exact natChars_all_digits n c (hc ▸ List.mem_cons_self c cr)
  | arr es =>
    cases es with
    | nil => exact ⟨'[', _, rfl, Or.inr (Or.inr (Or.inl rfl))⟩
    | cons e t => exact ⟨'[', _, rfl, Or.inr (Or.inr (Or.inl rfl))⟩
  | obj fs =>
    cases fs with
    | nil => exact ⟨'\x7b', _, rfl, Or.inr (Or.inr (Or.inr rfl))⟩
    | cons kv t => exact ⟨'\x7b', _, rfl, Or.inr (Or.inr (Or.inr rfl))⟩

theorem printJson_head_facts (j : Json) :
    ∃ c cr, printJson j = c :: cr
      ∧ c ≠ ']' ∧ c ≠ '\x7d' ∧ isJsonWs c = false ∧ c ≠ ',' := by
  obtain ⟨c, cr, hj, hcat⟩ := printJson_head j
  refine ⟨c, cr, hj, ?_, ?_, ?_, ?_⟩
  · rcases hcat with rfl | hd | rfl | rfl
    · decide
    · intro h; rw [h] at hd; exact absurd hd (by decide)
    · decide
    · decide
  · rcases hcat with rfl | hd | rfl | rfl
    · decide
    · intro h; rw [h] at hd; exact absurd hd (by decide)
    · decide
    · decide
  · rcases hcat with rfl | hd | rfl | rfl
    · decide
    · by_contra hw
      simp only [Bool.not_eq_false, isJsonWs, Bool.or_eq_true, decide_eq_true_eq] at hw
      rcases hw with ((rfl | rfl) | rfl) | rfl <;> simp at hd
    · decide
    · decide
  · rcases hcat with rfl | hd | rfl | rfl
    · decide
    · intro h; rw [h] at hd; exact absurd hd (by decide)
    · decide
    · decide

theorem printJson_ne_nil (j : Json) : printJson j ≠ [] := by
  obtain ⟨c, cr, hj, _⟩ := printJson_head j
  rw [hj]
  simp

theorem printJson_length_pos (j : Json) : 1 ≤ (printJson j).length := by
  obtain ⟨c, cr, hj, _⟩ := printJson_head j
  rw [hj]
  simp

theorem noLeadingDigit_printElemsRest (es : List Json) (rest : List Char) :
    noLeadingDigit (printElemsRest es ++ rest) := by
  cases es <;> intro c hc <;> simp only [printElemsRest, List.cons_append,
    List.head?_cons, Option.some.injEq] at hc <;> subst hc <;> decide

theorem noLeadingDigit_printFieldsRest (fs : List (String × Json)) (rest : List Char) :
    noLeadingDigit (printFieldsRest fs ++ rest) := by
  cases fs with
  | nil =>
    intro c hc
    simp only [printFieldsRest, List.cons_append, List.head?_cons, Option.some.injEq] at hc
    subst hc
    decide
  | cons kv t =>
    intro c hc
    obtain ⟨k, v⟩ := kv
    simp only [printFieldsRest, List.cons_append, List.head?_cons, Option.some.injEq] at hc
    subst hc
    decide

theorem parseArrTail_close (f : Nat) (acc : List Json) (cs : List Char) :
    parseArrTail f acc (']' :: cs) = some (Json.arr acc.reverse, cs) := by
  cases f <;> (conv_lhs => unfold parseArrTail) <;> simp +decide

theorem parseArrTail_comma_some (f : Nat) (acc : List Json) (cs : List Char)
    (j : Json) (rest : List Char) (h : parseValue f cs = some (j, rest)) :
    parseArrTail (f + 1) acc (',' :: cs) = parseArrTail f (j :: acc) rest := by
  conv_lhs => unfold parseArrTail
  simp +decide [h]

theorem parseObjTail_close (f : Nat) (acc : List (String × Json)) (cs : List Char) :
    parseObjTail f acc ('\x7d' :: cs) = some (Json.obj acc.reverse, cs) := by
  cases f <;> (conv_lhs => unfold parseObjTail) <;> simp +decide

theorem parseObjTail_comma (f : Nat) (acc : List (String × Json)) (cs : List Char) :
    parseObjTail (f + 1) acc (',' :: cs) = parseObjItem f acc cs := by
  conv_lhs => unfold parseObjTail
  simp +decide

theorem parseObjItem_quote_some (f : Nat) (acc : List (String × Json)) (cs : List Char)
    (k : String) (v : Json) (rest rest2 : List Char)
    (hk : parseStringBody [] cs = some (k, ':' :: rest))
    (hv : parseValue f rest = some (v, rest2)) :
    parseObjItem (f + 1) acc ('"' :: cs) = parseObjTail f ((k, v) :: acc) rest2 := by
  conv_lhs => unfold parseObjItem
  simp +decide [hk, hv]

theorem parseValue_quote_some (f : Nat) (cs : List Char) (s : String) (rest : List Char)
    (h : parseStringBody [] cs = some (s, rest)) :
    parseValue (f + 1) ('"' :: cs) = some (Json.str s, rest) := by
  conv_lhs => unfold parseValue
  simp +decide [h]

theorem parseValue_arrEmpty (f : Nat) (cs : List Char) :
    parseValue (f + 1) ('[' :: ']' :: cs) = some (Json.arr [], cs) := by
  conv_lhs => unfold parseValue
  simp +decide

theorem parseValue_arrStep_some (f : Nat) (d : Char) (cs : List Char) (j : Json)
    (rest : List Char) (hd : d ≠ ']') (h : parseValue f (d :: cs) = some (j, rest)) :
    parseValue (f + 1) ('[' :: d :: cs) = parseArrTail f [j] rest := by
  conv_lhs => unfold parseValue
  simp +decide [hd, h]

theorem parseValue_objEmpty (f : Nat) (cs : List Char) :
    parseValue (f + 1) ('\x7b' :: '\x7d' :: cs) = some (Json.obj [], cs) := by
  conv_lhs => unfold parseValue
  simp +decide

theorem parseValue_objStep (f : Nat) (d : Char) (cs : List Char) (hd : d ≠ '\x7d') :
    parseValue (f + 1) ('\x7b' :: d :: cs) = parseObjItem f [] (d :: cs) := by
  conv_lhs => unfold parseValue
  simp +decide [hd]

theorem parseValue_digit (f : Nat) (c : Char) (cs : List Char) (hc : c.isDigit = true)
    (h1 : c ≠ '"') (h2 : c ≠ '[') (h3 : c ≠ '\x7b') :
    parseValue (f + 1) (c :: cs)
      = some (Json.num (digitsToNat (spanDigits (c :: cs)).1), (spanDigits (c :: cs)).2) := by
  conv_lhs => unfold parseValue
  rw [if_neg h1, if_neg h2, if_neg h3, if_pos hc]

theorem noLeadingDigit_cons (c : Char) (hc : c.isDigit = false) (t : List Char) :
    noLeadingDigit (c :: t) := by
  intro x hx
  simp only [List.head?_cons, Option.some.injEq] at hx
  subst hx
  exact hc

theorem printElemsRest_length_pos (es : List Json) : 1 ≤ (printElemsRest es).length := by
  cases es <;> simp [printElemsRest]

theorem printFieldsRest_length_pos (fs : List (String × Json)) :
    1 ≤ (printFieldsRest fs).length := by
  cases fs with
  | nil => simp [printFieldsRest]
  | cons kv t => obtain ⟨k, v⟩ := kv; simp [printFieldsRest]

theorem printString_length_ge (k : String) : 2 ≤ (printString k).length := by
  simp [printString]

theorem printKV_length (k : String) (v : Json) :
    (printKV (k, v)).length = (printString k).length + (1 + (printJson v).length) := by
  simp [printKV]
  omega

theorem parseArrTail_printed (es : List Json) (hes : ∀ j ∈ es, ParsesBack j) :
    ∀ f acc rest, (printElemsRest es).length ≤ f → noLeadingDigit rest →
      parseArrTail f acc (printElemsRest es ++ rest)
        = some (Json.arr (acc.reverse ++ es), rest) := by
  induction es with
  | nil =>
    intro f acc rest _ _
    show parseArrTail f acc (']' :: rest) = _
    rw [parseArrTail_close]
    simp
  | cons e es2 ih =>
    intro f acc rest hf hrest
    have hep := printJson_length_pos e
    have hrp := printElemsRest_length_pos es2
    simp only [printElemsRest, List.length_cons, List.length_append] at hf
    obtain ⟨f', rfl⟩ : ∃ f', f = f' + 1 := ⟨f - 1, by omega⟩
    have hstep : printElemsRest (e :: es2) ++ rest
        = ',' :: (printJson e ++ (printElemsRest es2 ++ rest)) := by
      simp [printElemsRest, List.append_assoc]
    rw [hstep,
      parseArrTail_comma_some f' acc _ e (printElemsRest es2 ++ rest)
        (hes e (List.mem_cons_self e es2) f' (printElemsRest es2 ++ rest) (by omega)
          (noLeadingDigit_printElemsRest es2 rest)),
      ih (fun j hj => hes j (List.mem_cons_of_mem e hj)) f' (e :: acc) rest (by omega) hrest]
    simp [List.append_assoc]

theorem parseObjItem_printed (fs : List (String × Json)) (hfs : ∀ kv ∈ fs, ParsesBack kv.2) :
    ∀ k v, ParsesBack v → ∀ f acc rest,
      (printKV (k, v)).length + (printFieldsRest fs).length ≤ f → noLeadingDigit rest →
      parseObjItem f acc (printKV (k, v) ++ (printFieldsRest fs ++ rest))
        = some (Json.obj (acc.reverse ++ (k, v) :: fs), rest) := by
  induction fs with
  | nil =>
    intro k v hv f acc rest hf hrest
    have hvp := printJson_length_pos v
    have hsl := printString_length_ge k
    have hkl := printKV_length k v
    have hfl : (printFieldsRest ([] : List (String × Json))).length = 1 := by
      simp [printFieldsRest]
    obtain ⟨f', rfl⟩ : ∃ f', f = f' + 1 := ⟨f - 1, by omega⟩
    have hstep : printKV (k, v) ++ (printFieldsRest ([] : List (String × Json)) ++ rest)
        = '"' :: ((k.data.map escapeChar).flatten
            ++ '"' :: (':' :: (printJson v ++ ('\x7d' :: rest)))) := by
      simp [printKV, printString, printFieldsRest, List.append_assoc]
    have hk : parseStringBody [] ((k.data.map escapeChar).flatten
        ++ '"' :: (':' :: (printJson v ++ ('\x7d' :: rest))))
        = some (k, ':' :: (printJson v ++ ('\x7d' :: rest))) := by
      have := parseStringBody_printed k.data []
        (':' :: (printJson v ++ ('\x7d' :: rest)))
      simpa [string_mk_data] using this
    have hvv : parseValue f' (printJson v ++ ('\x7d' :: rest))
        = some (v, '\x7d' :: rest) := by
      exact hv f' ('\x7d' :: rest) (by omega) (noLeadingDigit_cons _ (by decide) _)
    rw [hstep, parseObjItem_quote_some f' acc _ k v _ _ hk hvv, parseObjTail_close]
    simp

  | cons kv2 fs2 ih =>
    intro k v hv f acc rest hf hrest
    obtain ⟨k2, v2⟩ := kv2
    have hvp := printJson_length_pos v
    have hv2p := printJson_length_pos v2
    have hsl := printString_length_ge k
    have hs2l := printString_length_ge k2
    have hkl := printKV_length k v
    have hk2l := printKV_length k2 v2
    have hf2p := printFieldsRest_length_pos fs2
    have hffl : (printFieldsRest ((k2, v2) :: fs2)).length
        = 1 + ((printKV (k2, v2)).length + (printFieldsRest fs2).length) := by
      simp [printFieldsRest]
      omega
    obtain ⟨f'', rfl⟩ : ∃ f'', f = f'' + 1 + 1 := ⟨f - 2, by omega⟩
    have hstep : printKV (k, v) ++ (printFieldsRest ((k2, v2) :: fs2) ++ rest)
        = '"' :: ((k.data.map escapeChar).flatten
            ++ '"' :: (':' :: (printJson v
              ++ (',' :: (printKV (k2, v2) ++ (printFieldsRest fs2 ++ rest)))))) := by
      simp [printKV, printString, printFieldsRest, List.append_assoc]
    have hk : parseStringBody [] ((k.data.map escapeChar).flatten
        ++ '"' :: (':' :: (printJson v
          ++ (',' :: (printKV (k2, v2) ++ (printFieldsRest fs2 ++ rest))))))
        = some (k, ':' :: (printJson v
          ++ (',' :: (printKV (k2, v2) ++ (printFieldsRest fs2 ++ rest))))) := by
      have := parseStringBody_printed k.data []
        (':' :: (printJson v ++ (',' :: (printKV (k2, v2) ++ (printFieldsRest fs2 ++ rest)))))
      simpa [string_mk_data] using this
    have hvv : parseValue (f'' + 1) (printJson v
        ++ (',' :: (printKV (k2, v2) ++ (printFieldsRest fs2 ++ rest))))
        = some (v, ',' :: (printKV (k2, v2) ++ (printFieldsRest fs2 ++ rest))) := by
      exact hv (f'' + 1) _ (by omega) (noLeadingDigit_cons _ (by decide) _)
    rw [hstep, parseObjItem_quote_some (f'' + 1) acc _ k v _ _ hk hvv,
      parseObjTail_comma,
      ih (fun kv hkv => hfs kv (List.mem_cons_of_mem _ hkv)) k2 v2
        (hfs (k2, v2) (List.mem_cons_self _ _)) f'' ((k, v) :: acc) rest (by omega) hrest]
    simp [List.append_assoc]

theorem printJson_parsesBack : ∀ j, ParsesBack j := by
  refine json_ind ParsesBack ?_ ?_ ?_ ?_
  · intro s f rest hf hrest
    have hl : 2 ≤ (printJson (Json.str s)).length := by
      simp [printJson, printString]
    obtain ⟨f', rfl⟩ : ∃ f', f = f' + 1 := ⟨f - 1, by omega⟩
    have hstep : printJson (Json.str s) ++ rest
        = '"' :: ((s.data.map escapeChar).flatten ++ '"' :: rest) := by
      simp [printJson, printString, List.append_assoc]
    rw [hstep, parseValue_quote_some f' _ s rest (by
      have := parseStringBody_printed s.data [] rest
      simpa [string_mk_data] using this)]
  · intro n f rest hf hrest
    obtain ⟨c, cr, hc⟩ : ∃ c cr, natChars n = c :: cr := by
      cases hn : natChars n with
      | nil => exact absurd hn (natChars_ne_nil n)
      | cons a b => exact ⟨a, b, rfl⟩
    have hl := printJson_length_pos (Json.num n)
    obtain ⟨f', rfl⟩ : ∃ f', f = f' + 1 := ⟨f - 1, by omega⟩
    have hcd : c.isDigit = true :=
      natChars_all_digits n c (hc ▸ List.mem_cons_self c cr)
    have h1 : c ≠ '"' := by intro h; rw [h] at hcd; exact absurd hcd (by decide)
    have h2 : c ≠ '[' := by intro h; rw [h] at hcd; exact absurd hcd (by decide)
    have h3 : c ≠ '\x7b' := by intro h; rw [h] at hcd; exact absurd hcd (by decide)
    have hpn : printJson (Json.num n) = natChars n := by simp [printJson]
    rw [hpn, hc, List.cons_append, parseValue_digit f' c (cr ++ rest) hcd h1 h2 h3]
    have hspan : spanDigits (c :: (cr ++ rest)) = (natChars n, rest) := by
      rw [← List.cons_append, ← hc]
      exact spanDigits_printed _ _ (natChars_all_digits n) hrest
    rw [hspan]
    simp [digitsToNat_natChars]
  · intro es hes f rest hf hrest
    cases es with
    | nil =>
      have hl : 2 ≤ (printJson (Json.arr [])).length := by simp [printJson]
      obtain ⟨f', rfl⟩ : ∃ f', f = f' + 1 := ⟨f - 1, by omega⟩
      have hstep : printJson (Json.arr []) ++ rest = '[' :: ']' :: rest := by
        simp [printJson]
      rw [hstep]
      exact parseValue_arrEmpty f' rest
    | cons e es2 =>
      obtain ⟨c0, cr0, hc0, hne1, hne2, hnw, hnc⟩ := printJson_head_facts e
      have hep := printJson_length_pos e
      have hrp := printElemsRest_length_pos es2
      simp only [printJson, List.length_cons, List.length_append] at hf
      obtain ⟨f', rfl⟩ : ∃ f', f = f' + 1 := ⟨f - 1, by omega⟩
      have hstep : printJson (Json.arr (e :: es2)) ++ rest
          = '[' :: (c0 :: (cr0 ++ (printElemsRest es2 ++ rest))) := by
        simp [printJson, hc0, List.append_assoc]
      rw [hstep]
      have hpv : parseValue f' (c0 :: (cr0 ++ (printElemsRest es2 ++ rest)))
          = some (e, printElemsRest es2 ++ rest) := by
        rw [← List.cons_append, ← hc0]
        exact hes e (List.mem_cons_self e es2) f' _ (by omega)
          (noLeadingDigit_printElemsRest es2 rest)
      rw [parseValue_arrStep_some f' c0 _ e _ hne1 hpv,
        parseArrTail_printed es2 (fun j hj => hes j (List.mem_cons_of_mem e hj)) f'
          [e] rest (by omega) hrest]
      simp
  · intro fs hfs f rest hf hrest
    cases fs with
    | nil =>
      have hl : 2 ≤ (printJson (Json.obj [])).length := by simp [printJson]
      obtain ⟨f', rfl⟩ : ∃ f', f = f' + 1 := ⟨f - 1, by omega⟩
      have hstep : printJson (Json.obj []) ++ rest = '\x7b' :: '\x7d' :: rest := by
        simp [printJson]
      rw [hstep]
      exact parseValue_objEmpty f' rest
    | cons kv fs2 =>
      obtain ⟨k, v⟩ := kv
      have hvp := printJson_length_pos v
      have hsl := printString_length_ge k
      have hkl := printKV_length k v
      have hf2p := printFieldsRest_length_pos fs2
      simp only [printJson, List.length_cons, List.length_append] at hf
      obtain ⟨f', rfl⟩ : ∃ f', f = f' + 1 := ⟨f - 1, by omega⟩
      have hstep : printJson (Json.obj ((k, v) :: fs2)) ++ rest
          = '\x7b' :: ('"' :: ((k.data.map escapeChar).flatten
              ++ ('"' :: ':' :: (printJson v ++ (printFieldsRest fs2 ++ rest))))) := by
        simp [printJson, printKV, printString, List.append_assoc]
      rw [hstep, parseValue_objStep f' '"' _ (by decide)]
      have hback : ('"' :: ((k.data.map escapeChar).flatten
          ++ ('"' :: ':' :: (printJson v ++ (printFieldsRest fs2 ++ rest)))))
          = printKV (k, v) ++ (printFieldsRest fs2 ++ rest) := by
        simp [printKV, printString, List.append_assoc]
      rw [hback,
        parseObjItem_printed fs2 (fun kv hkv => hfs kv (List.mem_cons_of_mem _ hkv)) k v
          (hfs (k, v) (List.mem_cons_self _ _)) f' [] rest (by omega) hrest]
      simp

theorem isJsonWs_not_digit (c : Char) (h : isJsonWs c = true) : c.isDigit = false := by
  simp only [isJsonWs, Bool.or_eq_true, decide_eq_true_eq] at h
  rcases h with ((rfl | rfl) | rfl) | rfl <;> decide

theorem jsonParse_printed (j : Json) (ws : List Char)
    (hws : ∀ c ∈ ws, isJsonWs c = true) :
    jsonParse (String.mk (printJson j ++ ws)) = some j := by
  obtain ⟨c0, cr0, hc0, _, _, hnw, _⟩ := printJson_head_facts j
  have hnd : noLeadingDigit ws := by
    intro c hc
    cases ws with
    | nil => simp at hc
    | cons a t =>
      simp only [List.head?_cons, Option.some.injEq] at hc
      exact hc ▸ isJsonWs_not_digit a (hws a (List.mem_cons_self a t))
  simp only [jsonParse]
  have hdw : (printJson j ++ ws).dropWhile isJsonWs = printJson j ++ ws := by
    rw [hc0, List.cons_append, List.dropWhile_cons, hnw]
    simp
  show (match parseValue (((printJson j ++ ws).dropWhile isJsonWs).length + 1)
      ((printJson j ++ ws).dropWhile isJsonWs) with
    | some (out, rest) => if rest.dropWhile isJsonWs = [] then some out else none
    | none => none) = some j
  rw [hdw, printJson_parsesBack j _ ws (by simp [List.length_append]; omega) hnd]
  simp [List.dropWhile_eq_nil_iff.mpr hws]

theorem jsonParse_printJsonStr (j : Json) : jsonParse (printJsonStr j) = some j := by
  have h := jsonParse_printed j [] (by simp)
  simpa [printJsonStr] using h

theorem msgFromJson_msgToJson (m : Message) : msgFromJson (msgToJson m) = some m := by
  rfl

theorem listMapOpt_msg (ms : List Message) :
    listMapOpt msgFromJson (ms.map msgToJson) = some ms := by
  induction ms with
  | nil => rfl
  | cons m t ih => simp [listMapOpt, msgFromJson_msgToJson, ih]

theorem chatFromJson_chatToJson (c : Chat) : chatFromJson (chatToJson c) = some c := by
  simp only [chatToJson, chatFromJson, jsonField]
  simp only [List.find?]
  simp +decide [listMapOpt_msg]

theorem chatsFromJson_chatsToJson (cs : List Chat) :
    chatsFromJson (chatsToJson cs) = some cs := by
  simp only [chatsToJson, chatsFromJson]
  induction cs with
  | nil => rfl
  | cons c t ih => simp [listMapOpt, chatFromJson_chatToJson, ih]

/-- C6: for every conversation collection, including the empty one,
writing it to durable storage and reading it back yields an equal
collection, and after the write the stored blob under "avas-chats" is
exactly the serialization of the in-memory collection (the write is a
synchronous whole-collection overwrite). -/
theorem chats_save_load_roundtrip (store : Store) (cs : List Chat) :
    loadChats (saveChats store cs) = cs
    ∧ saveChats store cs "avas-chats" = some (printJsonStr (chatsToJson cs)) := by
  have hstore : saveChats store cs "avas-chats"
      = some (printJsonStr (chatsToJson cs)) := by
    unfold saveChats setItem
    simp
  refine ⟨?_, hstore⟩
  unfold loadChats
  rw [hstore]
  have hne : (printJsonStr (chatsToJson cs)).isEmpty = false := by
    cases hie : (printJsonStr (chatsToJson cs)).isEmpty with
    | false => rfl
    | true =>
      have h0 : printJsonStr (chatsToJson cs) = "" := (String.isEmpty_iff _).mp hie
      have h1 : printJson (chatsToJson cs) = [] := congrArg String.data h0
      exact absurd h1 (printJson_ne_nil _)
  show (if (printJsonStr (chatsToJson cs)).isEmpty = true then []
    else
      match jsonParse (printJsonStr (chatsToJson cs)) with
      | none => []
      | some j => (chatsFromJson j).getD []) = cs
  rw [hne]
  simp only [Bool.false_eq_true, if_false]
  rw [jsonParse_printJsonStr]
  show (chatsFromJson (chatsToJson cs)).getD [] = cs
  rw [chatsFromJson_chatsToJson]
  rfl

/-- C10: every line the relay writes during a streamed response carries a
non-empty fragment: whenever the handler streams a fragment list, each
written line is the JSON serialization of an object whose
`message.content` is that fragment, the fragment is non-empty (empty
backend chunks are filtered out before emission at index.ts line 151),
and parsing the line recovers exactly that object and content. -/
theorem streamed_lines_nonempty_content (msgs : List Message) (model : Option String)
    (stream : Option Bool) (backend : Backend) (fragments : List String)
    (h : chatHandler true ⟨.arr msgs, model, stream⟩ backend = .streamed fragments) :
    ∀ line ∈ streamedLines fragments, ∃ t : String, t ≠ ""
      ∧ line = fragmentLine t
      ∧ jsonParse line
          = some (Json.obj [("message", Json.obj [("content", Json.str t)])])
      ∧ fragmentContent
          (Json.obj [("message", Json.obj [("content", Json.str t)])]) = some t := by
  intro line hline
  rw [streamedLines, List.mem_map] at hline
  obtain ⟨t, ht, rfl⟩ := hline
  have htne : t ≠ "" := by
    cases hl : msgs.getLast? with
    | none => simp [chatHandler, hl] at h
    | some last =>
      simp only [chatHandler, hl, Bool.not_true, Bool.false_eq_true, if_false] at h
      cases hu : stream.getD true with
      | false =>
        rw [hu] at h
        simp at h
      | true =>
        rw [hu] at h
        rw [if_pos rfl] at h
        simp only [ChatResult.streamed.injEq] at h
        rw [← h] at ht
        rw [List.mem_filter] at ht
        have h2 := ht.2
        simp only [Bool.not_eq_true'] at h2
        intro he
        have h3 := (String.isEmpty_iff t).mpr he
        rw [h2] at h3
        exact Bool.noConfusion h3
  have hie : t.isEmpty = false := by
    cases hie2 : t.isEmpty with
    | false => rfl
    | true => exact absurd ((String.isEmpty_iff t).mp hie2) htne
  refine ⟨t, htne, rfl, ?_, ?_⟩
  · have hmk : fragmentLine t
        = String.mk (printJson (Json.obj [("message", Json.obj [("content", Json.str t)])])
            ++ ['\n']) := rfl
    rw [hmk]
    exact jsonParse_printed _ ['\n'] (by intro c hc; simp at hc; subst hc; decide)
  · simp only [fragmentContent, jsonField, List.find?]
    simp +decide [hie]

/-- Witness for C10: with a stub backend streaming the single fragment
"x", the one emitted line parses back to the fragment object with content
"x". -/
theorem streamed_lines_nonempty_content_witness :
    ∃ t : String, t ≠ "" ∧ fragmentLine "x" = fragmentLine t
      ∧ jsonParse (fragmentLine "x")
          = some (Json.obj [("message", Json.obj [("content", Json.str t)])])
      ∧ fragmentContent
          (Json.obj [("message", Json.obj [("content", Json.str t)])]) = some t := by
  have h := streamed_lines_nonempty_content [⟨"user", "Hi"⟩] none (some true)
    (fun _ _ => ["x"]) ["x"] (by decide)
  exact h (fragmentLine "x") (by simp [streamedLines])
